import Mathlib

/-!
Verification of the geomstats hypersphere/linear-algebra core against its
natural-language specification.  The Python sources
`geomstats/_backend/numpy/linalg.py` and `geomstats/geometry/hypersphere.py`
are shallowly embedded: rationals stand for the real scalars, external
numeric-library primitives (eigendecomposition, Cholesky, trig functions,
the general scipy solvers) are oracle parameters collected in environment
structures, and fallible numpy operations (shape-mismatched broadcasting,
boolean-mask assignment with a wrong-sized mask) return `Option`/`Except`.
-/

namespace Geomstats

/-! ### Scalar helpers shared by both modules -/

/-- numpy elementwise absolute value (kernel-reducible form of `|x|`). -/
def absQ (x : ℚ) : ℚ := if x < 0 then -x else x

/-- numpy `isclose` with the default tolerances `rtol=1e-5`, `atol=1e-8`:
`|a - b| <= atol + rtol * |b|`. -/
def isclose (a b : ℚ) : Bool :=
  decide (absQ (a - b) ≤ (1e-8 : ℚ) + (1e-5 : ℚ) * absQ b)

/-- numpy `clip(x, lo, hi)`. -/
def clip (x lo hi : ℚ) : ℚ := min hi (max lo x)

/-- Cast of a boolean mask entry to a float (`gs.cast(mask, gs.float32)`). -/
def boolFloat (b : Bool) : ℚ := if b then 1 else 0

/-! ### Dense matrices for the numpy linear-algebra backend

A matrix is a list of rows; batched (rank-3) input is a list of matrices.
-/

/-- A dense 2-D matrix: list of rows. -/
abbrev Mat := List (List ℚ)

/-- Euclidean dot product of two equal-length lists. -/
def dotL (u v : List ℚ) : ℚ := (List.zipWith (· * ·) u v).sum

/-- Number of rows: `m.shape[0]`. -/
def nRows (m : Mat) : ℕ := m.length

/-- Number of columns of a rectangular matrix: `m.shape[1]`. -/
def nCols (m : Mat) : ℕ := (m.headD []).length

/-- The shape tuple of a 2-D array. -/
def shape2 (m : Mat) : ℕ × ℕ := (nRows m, nCols m)

/-- numpy transpose of a rectangular 2-D array. -/
def transposeM (m : Mat) : Mat :=
  (List.range (nCols m)).map fun j => m.map fun row => row.getD j 0

/-- Matrix product of rectangular matrices (`np.matmul` / `@`). -/
def matmulM (a b : Mat) : Mat :=
  a.map fun row => (transposeM b).map fun col => dotL row col

/-- numpy `diag` of a vector. -/
def diagM (v : List ℚ) : Mat :=
  (List.range v.length).map fun i =>
    (List.range v.length).map fun j => if i = j then v.getD i 0 else 0

/-- Elementwise `(|x - y| < tol).all()` for equal-shaped matrices. -/
def matAbsSubLt (x y : Mat) (tol : ℚ) : Bool :=
  (List.zipWith
    (fun rx ry => (List.zipWith (fun a b => decide (absQ (a - b) < tol)) rx ry).all id)
    x y).all id

/-- Source `_is_symmetric(x, tol=1e-12)` applied to a rank-3 stack: every
matrix satisfies `(|x - xᵀ| < tol).all()`. -/
def is_symmetric (t : List Mat) (tol : ℚ) : Bool :=
  t.all fun m => matAbsSubLt m (transposeM m) tol

/-- The default symmetry tolerance `1e-12` used by `_is_symmetric` and
`solve_sylvester`. -/
def symTol : ℚ := 1e-12

/-- Oracle environment for the external numeric primitives consumed by
`linalg.py`: `np.linalg.eigh` (eigenvalues with their orthonormal
eigenvector matrix), `np.log`, `scipy.linalg.logm`,
`scipy.linalg.solve_sylvester` and `np.linalg.cholesky` (which either
succeeds or raises a `LinAlgError` carrying a message). -/
structure LinEnv where
  eigh : Mat → List ℚ × Mat
  log : ℚ → ℚ
  scipy_logm : Mat → Mat
  scipy_solve_sylvester : Mat → Mat → Mat → Mat
  cholesky : Mat → Except String Mat

/-- A numpy array of the ranks `is_pd` can receive; rank-2 and rank-3 carry
matrix data, the other ranks only matter for the dispatch on `ndim`. -/
inductive NpArr where
  | arr0 (x : ℚ)
  | arr1 (v : List ℚ)
  | arr2 (m : Mat)
  | arr3 (t : List Mat)
  | arr4 (t : List (List Mat))
deriving DecidableEq

/-- Eigen-shortcut body of `logm` for one matrix:
`V · diag(log eigvals) · Vᵀ` with `(eigvals, V) = eigh(m)`. -/
def eigLogm (env : LinEnv) (m : Mat) : Mat :=
  let p := env.eigh m
  matmulM (matmulM p.2 (diagM (p.1.map env.log))) (transposeM p.2)

/-- Body of `logm` on the rank-3 array `new_x = to_ndarray(x, to_ndim=3)`:
if every matrix is symmetric within `1e-12`, take `eigh`; if all eigenvalues
are strictly positive, use the eigen shortcut, otherwise (and when not
symmetric) fall back to `scipy.linalg.logm` per matrix. -/
def logm3 (env : LinEnv) (new_x : List Mat) : List Mat :=
  if is_symmetric new_x symTol then
    if (new_x.map env.eigh).all (fun p => p.1.all fun v => decide (0 < v)) then
      (new_x.map env.eigh).map fun p =>
        matmulM (matmulM p.2 (diagM (p.1.map env.log))) (transposeM p.2)
    else new_x.map env.scipy_logm
  else new_x.map env.scipy_logm

/-- Source `logm(x)`: lift a rank-2 input to a one-matrix stack, run the
rank-3 body, and take `result[0]` for rank-2 input; rank-3 input keeps its
rank.  Other ranks are outside the function's domain. -/
def logm (env : LinEnv) : NpArr → Option NpArr
  | .arr2 m => some (.arr2 ((logm3 env [m]).headD []))
  | .arr3 t => some (.arr3 (logm3 env t))
  | _ => none

/-- Eigen-decomposition path of `solve_sylvester` (taken when `a == b`,
symmetric, eigenvalues large enough): `q̃ = Vᵀ q V`,
`x̃ᵢⱼ = q̃ᵢⱼ / (λᵢ + λⱼ)`, result `V x̃ Vᵀ`. -/
def sylvesterEig (env : LinEnv) (a q : Mat) : Mat :=
  let p := env.eigh a
  let tilde_q := matmulM (matmulM (transposeM p.2) q) p.2
  let tilde_x := List.zipWith
    (fun (row : List ℚ) (li : ℚ) => List.zipWith (fun x lj => x / (li + lj)) row p.1)
    tilde_q p.1
  matmulM (matmulM p.2 tilde_x) (transposeM p.2)

/-- Source `solve_sylvester(a, b, q)` for 2-D operands (`axes = (1, 0)`):
if the shapes agree, `a == b` elementwise, `|a - aᵀ| < 1e-12` elementwise,
and every eigenvalue of `a` is `>= 1e-12`, use the simultaneous
eigen-decomposition path, else the general scipy solver. -/
def solve_sylvester (env : LinEnv) (a b q : Mat) : Mat :=
  if shape2 a = shape2 b then
    if a = b ∧ matAbsSubLt a (transposeM a) symTol = true then
      if (env.eigh a).1.all (fun v => decide ((1e-12 : ℚ) ≤ v)) then
        sylvesterEig env a q
      else env.scipy_solve_sylvester a b q
    else env.scipy_solve_sylvester a b q
  else env.scipy_solve_sylvester a b q

/-- Source `_is_single_matrix_pd(mat)`: attempt Cholesky; success is `true`,
the failure message `"Matrix is not positive definite"` is `false`, any
other failure is re-raised. -/
def _is_single_matrix_pd (env : LinEnv) (m : Mat) : Except String Bool :=
  match env.cholesky m with
  | .ok _ => .ok true
  | .error e => if e = "Matrix is not positive definite" then .ok false else .error e

/-- The value `is_pd` returns when it returns one: a single boolean for a
2-D input, a list of booleans for a 3-D batch. -/
inductive PdResult where
  | single (b : Bool)
  | batch (bs : List Bool)
deriving DecidableEq

/-- Whether the Cholesky oracle succeeds on a matrix. -/
def cholOk (env : LinEnv) (m : Mat) : Bool :=
  match env.cholesky m with
  | .ok _ => true
  | .error _ => false

/-- Whether an `Except` computation succeeded. -/
def exceptOk : Except ε α → Bool
  | .ok _ => true
  | .error _ => false

/-- A Python list comprehension whose body may raise: apply `f` left to
right, propagating the first exception unmodified. -/
def mapExcept (f : α → Except ε β) : List α → Except ε (List β)
  | [] => .ok []
  | x :: xs =>
    match f x with
    | .error e => .error e
    | .ok b => (mapExcept f xs).map fun bs => b :: bs

/-- Source `is_pd(mat)`: dispatch on `ndim` and squareness; square 2-D runs
the single-matrix check, non-square 2-D is `False`, square 3-D maps the
check over the batch, non-square 3-D is `[False] * mat.shape[0]`, and every
other rank falls through all branches (Python returns `None`). -/
def is_pd (env : LinEnv) : NpArr → Except String (Option PdResult)
  | .arr2 m =>
      if nRows m = nCols m then
        (_is_single_matrix_pd env m).map fun b => some (.single b)
      else .ok (some (.single false))
  | .arr3 t =>
      if nRows (t.headD []) = nCols (t.headD []) then
        (mapExcept (_is_single_matrix_pd env) t).map fun bs => some (.batch bs)
      else .ok (some (.batch (List.replicate t.length false)))
  | _ => .ok none

/-! ### Batched vectors and numpy-style broadcasting for the hypersphere

Rows are ambient vectors `Fin m → ℚ`; a batch is a list of rows.  Batched
binary operations broadcast a size-1 side against the other side and fail
(`none`) on any other length mismatch, following numpy semantics.
-/

/-- An ambient vector of the hypersphere's embedding space. -/
abbrev V (m : ℕ) := Fin m → ℚ

/-- Euclidean dot product of two ambient vectors. -/
def dotV {m : ℕ} (u v : V m) : ℚ := Matrix.dotProduct u v

/-- Broadcasting zip: equal lengths act elementwise, a length-1 side is
broadcast, anything else is a numpy shape error. -/
def bcZip (f : α → β → γ) (xs : List α) (ys : List β) : Option (List γ) :=
  if xs.length = ys.length then some (List.zipWith f xs ys)
  else match xs, ys with
    | [x], _ => some (ys.map (f x))
    | _, [y] => some (xs.map (f · y))
    | _, _ => none

/-- Boolean-mask extraction `xs[mask]`. -/
def maskExtract (xs : List α) (mask : List Bool) : List α :=
  ((xs.zip mask).filter fun p => p.2).map fun p => p.1

/-- Number of `true` entries in a mask. -/
def countTrue (mask : List Bool) : ℕ := (mask.filter id).length

/-- Replace the `true`-masked positions of `dst` by successive entries of
`src` (helper for `maskedAssign`). -/
def maskedAssignGo : List ℚ → List Bool → List ℚ → List ℚ
  | [], _, _ => []
  | d :: ds, [], _ => d :: ds
  | d :: ds, b :: bs, src =>
      if b then src.headD 0 :: maskedAssignGo ds bs src.tail
      else d :: maskedAssignGo ds bs src

/-- Boolean-mask assignment `dst[mask] = src`: a numpy `IndexError` (here
`none`) unless the mask has the length of `dst` and `src` has one entry per
`true` mask position. -/
def maskedAssign (dst : List ℚ) (mask : List Bool) (src : List ℚ) : Option (List ℚ) :=
  if mask.length = dst.length ∧ src.length = countTrue mask then
    some (maskedAssignGo dst mask src)
  else none

/-- Oracle environment for the transcendental functions the hypersphere
code consumes from the numeric backend. -/
structure SphereEnv where
  sqrt : ℚ → ℚ
  sin : ℚ → ℚ
  cos : ℚ → ℚ
  tan : ℚ → ℚ
  arccos : ℚ → ℚ

/-- Modelled from the spec: the ambient `EuclideanMetric.inner_product`
(its file `geomstats/geometry/euclidean_space.py` is outside the analyzed
sources).  Per the spec it is the pass-through Euclidean dot product over
batches, with size-1 batches broadcasting against larger ones. -/
def inner_product {m : ℕ} (u v : List (V m)) : Option (List ℚ) :=
  bcZip (fun a b => dotV a b) u v

/-- Modelled from the spec: the ambient `EuclideanMetric.squared_norm`,
the rowwise Euclidean squared norm. -/
def squared_norm {m : ℕ} (u : List (V m)) : List ℚ :=
  u.map fun a => dotV a a

/-- Modelled from the spec: the ambient `EuclideanMetric.norm`, the rowwise
square root of the squared norm. -/
def normE (env : SphereEnv) {m : ℕ} (u : List (V m)) : List ℚ :=
  u.map fun a => env.sqrt (dotV a a)

/-- Source `Hypersphere.belongs(point, tolerance)`: if the trailing
dimension is not `dimension + 1`, return the single value `[[False]]`,
warning (Python compares the small ints with `is`, which agrees with
equality there) exactly when the trailing dimension is the intrinsic
`dimension`; otherwise compare `|⟨p,p⟩ − 1|` with the tolerance per row.
The first component records whether the advisory warning was emitted. -/
def belongs {m : ℕ} (dimension : ℕ) (point : List (V m)) (tolerance : ℚ) :
    Bool × List (List Bool) :=
  if m ≠ dimension + 1 then
    ((m == dimension), [[false]])
  else
    (false, point.map fun p => [decide (absQ (dotV p p - 1) ≤ tolerance)])

/-- Source `Hypersphere.projection_to_tangent_space(vector, base_point)`:
`coef = ⟨p,v⟩/⟨p,p⟩` rowwise, result `v − coef·p` (broadcast). -/
def projection_to_tangent_space {m : ℕ} (vector base_point : List (V m)) :
    Option (List (V m)) := do
  let sq_norm := squared_norm base_point
  let inner_prod ← inner_product base_point vector
  let coef ← bcZip (fun (i s : ℚ) => i / s) inner_prod sq_norm
  let scaled ← bcZip (fun (c : ℚ) (p : V m) => c • p) coef base_point
  bcZip (fun (v w : V m) => v - w) vector scaled

/-- Source `HypersphereMetric.exp(tangent_vec, base_point)`: project the
tangent vector, take its rowwise norm, tile each side by
`n_exps // n_side`, split the samples by `isclose(norm, 0)` into a 4-term
Taylor branch and an exact trig branch via boolean-mask assignment, and
combine `coef_1·base_point + coef_2·proj_tangent_vec`. -/
def exp (env : SphereEnv) {m : ℕ} (tangent_vec base_point : List (V m)) :
    Option (List (V m)) := do
  let n_base_points := base_point.length
  let n_tangent_vecs := tangent_vec.length
  let n_exps := max n_base_points n_tangent_vecs
  let proj_tangent_vec ← projection_to_tangent_space tangent_vec base_point
  let norm_tangent_vec := normE env proj_tangent_vec
  let norm_tangent_vec := (List.replicate (n_exps / n_tangent_vecs) norm_tangent_vec).flatten
  let base_point := (List.replicate (n_exps / n_base_points) base_point).flatten
  let mask_0 := norm_tangent_vec.map fun x => isclose x 0
  let mask_non0 := mask_0.map (! ·)
  let norm0 := maskExtract norm_tangent_vec mask_0
  let coef_1 ← maskedAssign (List.replicate n_exps 0) mask_0
      (norm0.map fun t => 1 - t ^ 2 / 2 + (t ^ 2) ^ 2 / 24 - (t ^ 2) ^ 3 / 720)
  let coef_2 ← maskedAssign (List.replicate n_exps 0) mask_0
      (norm0.map fun t => 1 - t ^ 2 / 6 + (t ^ 2) ^ 2 / 120 - (t ^ 2) ^ 3 / 5040)
  let normN := maskExtract norm_tangent_vec mask_non0
  let coef_1 ← maskedAssign coef_1 mask_non0 (normN.map env.cos)
  let coef_2 ← maskedAssign coef_2 mask_non0 (normN.map fun t => env.sin t / t)
  let t1 ← bcZip (fun (c : ℚ) (p : V m) => c • p) coef_1 base_point
  let t2 ← bcZip (fun (c : ℚ) (p : V m) => c • p) coef_2 proj_tangent_vec
  bcZip (fun (a b : V m) => a + b) t1 t2

/-- Source `HypersphereMetric.log(point, base_point)`: clipped
`cos_angle`, `angle = arccos`, Taylor coefficients on the
`isclose(angle, 0)` mask and exact `θ/sin θ`, `θ/tan θ` elsewhere,
`log = coef_1·point − coef_2·base_point`; finally every sample whose
entries are all `isclose` to the base point's is forced to the exact zero
vector by `log -= mask_same_points_float * log`. -/
def log (env : SphereEnv) {m : ℕ} (point base_point : List (V m)) :
    Option (List (V m)) := do
  let norm_base_point := normE env base_point
  let norm_point := normE env point
  let inner_prod ← inner_product base_point point
  let prod_norms ← bcZip (fun (a b : ℚ) => a * b) norm_base_point norm_point
  let cos_angle ← bcZip (fun (i n : ℚ) => i / n) inner_prod prod_norms
  let cos_angle := cos_angle.map fun c => clip c (-1) 1
  let angle := cos_angle.map env.arccos
  let mask_0 := angle.map fun a => isclose a 0
  let mask_0_float := mask_0.map boolFloat
  let mask_else_float := mask_0.map fun b => boolFloat (! b)
  let coef_1 := List.zipWith
    (fun mf a => mf * (1 + (1 / 6 : ℚ) * a ^ 2 + (7 / 360 : ℚ) * a ^ 4
      + (31 / 15120 : ℚ) * a ^ 6 + (127 / 604800 : ℚ) * a ^ 8)) mask_0_float angle
  let coef_2 := List.zipWith
    (fun mf a => mf * (1 + (-1 / 3 : ℚ) * a ^ 2 + (-1 / 45 : ℚ) * a ^ 4
      + (-2 / 945 : ℚ) * a ^ 6 + (-1 / 4725 : ℚ) * a ^ 8)) mask_0_float angle
  let angle := List.zipWith (fun (a mf : ℚ) => a + mf * 1) angle mask_0_float
  let coef_1 := List.zipWith (fun c x => c + x) coef_1
      (List.zipWith (fun mf a => mf * a / env.sin a) mask_else_float angle)
  let coef_2 := List.zipWith (fun c x => c + x) coef_2
      (List.zipWith (fun mf a => mf * a / env.tan a) mask_else_float angle)
  let t1 ← bcZip (fun (c : ℚ) (p : V m) => c • p) coef_1 point
  let t2 ← bcZip (fun (c : ℚ) (p : V m) => c • p) coef_2 base_point
  let lg ← bcZip (fun (a b : V m) => a - b) t1 t2
  let mask_same_values ← bcZip (fun (p b : V m) => fun j => isclose (p j) (b j))
      point base_point
  let mask_not_same_points := mask_same_values.map fun row => ∑ j, boolFloat (! row j)
  let mask_same_points := mask_not_same_points.map fun c => isclose c 0
  let mask_same_points_float := mask_same_points.map boolFloat
  bcZip (fun (msk : ℚ) (row : V m) => row - msk • row) mask_same_points_float lg

/-- Source `HypersphereMetric.dist(point_a, point_b)`:
`arccos(clip(⟨a,b⟩/(‖a‖‖b‖), −1, 1))` rowwise. -/
def dist (env : SphereEnv) {m : ℕ} (point_a point_b : List (V m)) :
    Option (List ℚ) := do
  let norm_a := normE env point_a
  let norm_b := normE env point_b
  let inner_prod ← inner_product point_a point_b
  let prod_norms ← bcZip (fun (a b : ℚ) => a * b) norm_a norm_b
  let cos_angle ← bcZip (fun (i n : ℚ) => i / n) inner_prod prod_norms
  let cos_angle := cos_angle.map fun c => clip c (-1) 1
  some (cos_angle.map env.arccos)

/-- Source `HypersphereMetric.parallel_transport(tangent_vec_a,
tangent_vec_b, base_point)`: asserts equal batch lengths, then per sample
`θ = ‖b‖`, `b̂ = b/θ`, `pb = ⟨a, b̂⟩`, orthogonal remainder `a − pb·b̂`,
result `−sin(θ)·pb·p + cos(θ)·pb·b̂ + remainder`. -/
def parallel_transport (env : SphereEnv) {m : ℕ}
    (tangent_vec_a tangent_vec_b base_point : List (V m)) : Option (List (V m)) :=
  if base_point.length = tangent_vec_a.length ∧
      tangent_vec_a.length = tangent_vec_b.length then
    let theta := tangent_vec_b.map fun b => env.sqrt (dotV b b)
    let normalized_b := List.zipWith (fun (t : ℚ) (b : V m) => (1 / t) • b)
      theta tangent_vec_b
    let pb := List.zipWith (fun (a nb : V m) => dotV a nb) tangent_vec_a normalized_b
    let p_orth := List.zipWith (fun (a x : V m) => a - x) tangent_vec_a
      (List.zipWith (fun (c : ℚ) (nb : V m) => c • nb) pb normalized_b)
    let term1 := List.zipWith (fun (c : ℚ) (p : V m) => c • p)
      (List.zipWith (fun t c => env.sin t * c) theta pb) base_point
    let term2 := List.zipWith (fun (c : ℚ) (nb : V m) => c • nb)
      (List.zipWith (fun t c => env.cos t * c) theta pb) normalized_b
    some (List.zipWith (fun (x y : V m) => x + y)
      (List.zipWith (fun (x y : V m) => -x + y) term1 term2) p_orth)
  else none

/-! ### Concrete oracle environments used to evaluate the embeddings -/

/-- A baseline linear-algebra oracle environment for concrete evaluations. -/
def linEnvBase : LinEnv where
  eigh := fun _ => ([], [])
  log := fun x => x
  scipy_logm := fun mm => mm
  scipy_solve_sylvester := fun _ _ _ => []
  cholesky := fun _ => .ok []

/-- Cholesky oracle for evaluating `is_pd`: `[[1]]` factors, `[[0]]` raises
the not-positive-definite error, anything else raises a different error. -/
def pdEnv : LinEnv :=
  { linEnvBase with
    cholesky := fun mm =>
      if mm = [[1]] then .ok [[1]]
      else if mm = [[0]] then .error "Matrix is not positive definite"
      else .error "boom" }

/-- Environment whose `eigh` reports the (true) eigendecomposition
`([0], [[1]])` of the 1×1 zero matrix and whose general Sylvester solver
returns a recognizable value. -/
def sylvEnvA : LinEnv :=
  { linEnvBase with
    eigh := fun _ => ([0], [[1]])
    scipy_solve_sylvester := fun _ _ _ => [[5]] }

/-- Environment whose `eigh` reports eigenvalues comfortably above the
`1e-12` threshold. -/
def sylvEnvB : LinEnv :=
  { linEnvBase with
    eigh := fun _ => ([2], [[1]])
    scipy_solve_sylvester := fun _ _ _ => [[5]] }

/-- Environment for evaluating `logm` concretely. -/
def logmEnv : LinEnv :=
  { linEnvBase with
    eigh := fun mm => if mm = [[1]] then ([1], [[1]]) else ([0], [[1]])
    log := fun _ => 0
    scipy_logm := fun _ => [[9]] }

/-- A trivial transcendental oracle (identity everywhere); shape-level
behavior of the hypersphere code does not depend on the oracle values. -/
def idEnv : SphereEnv where
  sqrt := id
  sin := id
  cos := id
  tan := id
  arccos := id

/-- Oracle with the two `arccos` values the distance claims rely on
(`arccos 1 = 0` and a stand-in value for `arccos (−1) = π`). -/
def arcEnv : SphereEnv :=
  { idEnv with
    arccos := fun x => if x = -1 then 22 / 7 else if x = 1 then 0 else 5 }

/-- Oracle consistent at the single point the parallel-transport witness
uses: `sqrt 4 = 2`, `sin θ = 3/5`, `cos θ = 4/5` (a Pythagorean pair). -/
def ptEnv : SphereEnv where
  sqrt := fun x => if x = 4 then 2 else 0
  sin := fun _ => 3 / 5
  cos := fun _ => 4 / 5
  tan := id
  arccos := id

/-! ### Helper lemmas -/

theorem range_one_eq : List.range 1 = [0] := rfl

theorem range_two_eq : List.range 2 = [0, 1] := rfl

theorem bcZip_eq_zipWith (f : α → β → γ) {xs : List α} {ys : List β}
    (h : xs.length = ys.length) : bcZip f xs ys = some (List.zipWith f xs ys) := by
  simp [bcZip, h]

theorem single_pd_eq_ok (env : LinEnv) (mm : Mat)
    (h : exceptOk (_is_single_matrix_pd env mm) = true) :
    _is_single_matrix_pd env mm = .ok (cholOk env mm) := by
  unfold _is_single_matrix_pd cholOk
  unfold _is_single_matrix_pd exceptOk at h
  cases hc : env.cholesky mm with
  | ok c => simp
  | error e =>
    simp only [hc] at h ⊢
    by_cases he : e = "Matrix is not positive definite"
    · simp [he]
    · simp [he] at h

theorem mapExcept_all_ok (env : LinEnv) (t : List Mat)
    (h : ∀ mm ∈ t, exceptOk (_is_single_matrix_pd env mm) = true) :
    mapExcept (_is_single_matrix_pd env) t = .ok (t.map fun mm => cholOk env mm) := by
  induction t with
  | nil => rfl
  | cons hd tl ih =>
    have hhd := single_pd_eq_ok env hd (h hd (by simp))
    simp only [mapExcept, hhd, List.map_cons]
    rw [ih fun mm hmm => h mm (by simp [hmm])]
    rfl

/-! ### Claim theorems -/

/-- C10: for every input array whose number of dimensions is neither 2 nor
3, `is_pd` falls through every branch and returns no boolean at all
(Python's `None`, here `none`) rather than raising or returning `false`. -/
theorem is_pd_other_rank_none :
    ∀ (env : LinEnv) (x : ℚ) (v : List ℚ) (t : List (List Mat)),
      is_pd env (.arr0 x) = .ok none ∧
      is_pd env (.arr1 v) = .ok none ∧
      is_pd env (.arr4 t) = .ok none :=
  fun _ _ _ _ => ⟨rfl, rfl, rfl⟩

/-- C9: whenever the trailing dimension differs from `dimension + 1`,
`belongs` returns the single value `[[false]]` (total, hence without
raising, regardless of batch size), warning exactly when the trailing
dimension equals the intrinsic dimension; and over all inputs the advisory
warning is emitted only when the trailing dimension equals the intrinsic
dimension. -/
theorem belongs_wrong_trailing_dim {m : ℕ} (dimension : ℕ) (point : List (V m))
    (tolerance : ℚ) (h : m ≠ dimension + 1) :
    (belongs dimension point tolerance).2 = [[false]] ∧
    ((belongs dimension point tolerance).1 = true ↔ m = dimension) ∧
    (∀ (d : ℕ) (pts : List (V m)) (tol : ℚ),
      (belongs d pts tol).1 = true → m = d) := by
  refine ⟨by simp [belongs, h], by simp [belongs, h], ?_⟩
  intro d pts tol hw
  by_cases hd : m ≠ d + 1
  · simpa [belongs, hd] using hw
  · simp [belongs, hd] at hw

/-- Witness for C9 at a concrete input: ambient size 2, intrinsic
dimension 2 (so the trailing dimension matches the intrinsic one). -/
theorem belongs_wrong_trailing_dim_witness :
    (2 ≠ 2 + 1) ∧
    (belongs 2 [![1, 2]] ((1 : ℚ) / 1000000)).2 = [[false]] ∧
    ((belongs 2 [![1, 2]] ((1 : ℚ) / 1000000)).1 = true ↔ 2 = 2) :=
  ⟨by decide,
   (belongs_wrong_trailing_dim 2 [![1, 2]] ((1 : ℚ) / 1000000) (by decide)).1,
   (belongs_wrong_trailing_dim 2 [![1, 2]] ((1 : ℚ) / 1000000) (by decide)).2.1⟩

/-- C6: `is_pd` attempts a Cholesky factorization per matrix.  On a square
2-D matrix a success yields `true`, the specific "Matrix is not positive
definite" failure yields `false`, and any other failure propagates
unmodified; a non-square 2-D input yields `false`; a square 3-D batch in
which no matrix raises an unrelated error yields one boolean per matrix
(Cholesky success of that matrix), and a non-square 3-D batch yields
`false` for every matrix. -/
theorem is_pd_dispatch (env : LinEnv) (m : Mat) (t : List Mat) (e : String) :
    (nRows m = nCols m → cholOk env m = true →
      is_pd env (.arr2 m) = .ok (some (.single true))) ∧
    (nRows m = nCols m → env.cholesky m = .error "Matrix is not positive definite" →
      is_pd env (.arr2 m) = .ok (some (.single false))) ∧
    (nRows m = nCols m → env.cholesky m = .error e →
      e ≠ "Matrix is not positive definite" → is_pd env (.arr2 m) = .error e) ∧
    (nRows m ≠ nCols m → is_pd env (.arr2 m) = .ok (some (.single false))) ∧
    (nRows (t.headD []) = nCols (t.headD []) →
      (∀ mm ∈ t, exceptOk (_is_single_matrix_pd env mm) = true) →
      is_pd env (.arr3 t) = .ok (some (.batch (t.map fun mm => cholOk env mm))) ∧
        (t.map fun mm => cholOk env mm).length = t.length) ∧
    (nRows (t.headD []) ≠ nCols (t.headD []) →
      is_pd env (.arr3 t) = .ok (some (.batch (List.replicate t.length false)))) := by
  refine ⟨?_, ?_, ?_, ?_, ?_, ?_⟩
  · intro hsq hok
    have := single_pd_eq_ok env m (by simp [exceptOk, _is_single_matrix_pd]; unfold cholOk at hok; revert hok; cases env.cholesky m <;> simp)
    simp [is_pd, hsq, this, hok, Except.map]
  · intro hsq herr
    simp [is_pd, hsq, _is_single_matrix_pd, herr, Except.map]
  · intro hsq herr hne
    simp [is_pd, hsq, _is_single_matrix_pd, herr, hne, Except.map]
  · intro hsq
    simp [is_pd, hsq]
  · intro hsq hok
    refine ⟨?_, by simp⟩
    simp only [is_pd]
    rw [if_pos hsq, mapExcept_all_ok env t hok]
    rfl
  · intro hsq
    simp only [is_pd]
    rw [if_neg hsq]

/-- Witness for C6: each dispatch case of `is_pd` evaluated at a concrete
matrix or batch under the `pdEnv` Cholesky oracle. -/
theorem is_pd_dispatch_witness :
    is_pd pdEnv (.arr2 [[1]]) = .ok (some (.single true)) ∧
    is_pd pdEnv (.arr2 [[0]]) = .ok (some (.single false)) ∧
    is_pd pdEnv (.arr2 [[7]]) = .error "boom" ∧
    is_pd pdEnv (.arr2 [[1, 2]]) = .ok (some (.single false)) ∧
    is_pd pdEnv (.arr3 [[[1]], [[0]]]) = .ok (some (.batch [true, false])) ∧
    is_pd pdEnv (.arr3 [[[1, 2]], [[3, 4]]]) =
      .ok (some (.batch (List.replicate 2 false))) :=
  ⟨(is_pd_dispatch pdEnv [[1]] [] "x").1 (by decide) (by decide),
   (is_pd_dispatch pdEnv [[0]] [] "x").2.1 (by decide) (by rfl),
   (is_pd_dispatch pdEnv [[7]] [] "boom").2.2.1 (by decide) (by rfl) (by decide),
   (is_pd_dispatch pdEnv [[1, 2]] [] "x").2.2.2.1 (by decide),
   ((is_pd_dispatch pdEnv [] [[[1]], [[0]]] "x").2.2.2.2.1 (by decide) (by decide)).1,
   (is_pd_dispatch pdEnv [] [[[1, 2]], [[3, 4]]] "x").2.2.2.2.2 (by decide)⟩

/-- C1 (amended): with the claim's eigenvalue bound `≥ −1e-12` replaced by
the code's `≥ 1e-12`, the dispatch holds: for equal-shaped `a`, `b`,
`solve_sylvester` takes the simultaneous eigen-decomposition path exactly
when `a = b`, `a` is symmetric within `1e-12`, and every eigenvalue of `a`
is `≥ 1e-12`; in every other case it returns the general solver's
result. -/
theorem solve_sylvester_amended (env : LinEnv) (a b q : Mat)
    (hshape : shape2 a = shape2 b) :
    (a = b ∧ matAbsSubLt a (transposeM a) symTol = true ∧
        (∀ v ∈ (env.eigh a).1, (1e-12 : ℚ) ≤ v) →
      solve_sylvester env a b q = sylvesterEig env a q) ∧
    (¬(a = b ∧ matAbsSubLt a (transposeM a) symTol = true ∧
        (∀ v ∈ (env.eigh a).1, (1e-12 : ℚ) ≤ v)) →
      solve_sylvester env a b q = env.scipy_solve_sylvester a b q) := by
  unfold solve_sylvester
  rw [if_pos hshape]
  constructor
  · rintro ⟨h1, h2, h3⟩
    rw [if_pos ⟨h1, h2⟩, if_pos]
    rw [List.all_eq_true]
    intro v hv
    simpa using h3 v hv
  · intro hneg
    by_cases h12 : a = b ∧ matAbsSubLt a (transposeM a) symTol = true
    · rw [if_pos h12, if_neg]
      intro hall
      apply hneg
      refine ⟨h12.1, h12.2, fun v hv => ?_⟩
      rw [List.all_eq_true] at hall
      simpa using hall v hv
    · rw [if_neg h12]

/-- C1 counterexample: at `a = b = [[0]]` (symmetric, eigenvalue `0 ≥
−1e-12`, so the claim as stated predicts the eigen-decomposition path) the
code returns the general solver's result, which differs from the
eigen-path result. -/
theorem solve_sylvester_counterexample :
    matAbsSubLt [[0]] (transposeM [[0]]) symTol = true ∧
    (∀ v ∈ (sylvEnvA.eigh [[0]]).1, -(1e-12 : ℚ) ≤ v) ∧
    solve_sylvester sylvEnvA [[0]] [[0]] [[1]] =
      sylvEnvA.scipy_solve_sylvester [[0]] [[0]] [[1]] ∧
    solve_sylvester sylvEnvA [[0]] [[0]] [[1]] = [[5]] ∧
    sylvesterEig sylvEnvA [[0]] [[1]] = [[0]] ∧
    ¬ solve_sylvester sylvEnvA [[0]] [[0]] [[1]] = sylvesterEig sylvEnvA [[0]] [[1]] := by
  norm_num [solve_sylvester, sylvesterEig, sylvEnvA, linEnvBase, matAbsSubLt,
    transposeM, nCols, nRows, shape2, absQ, symTol, matmulM, diagM, dotL,
    List.range_succ]

/-- Witness for C1 (amended), exercising both branches at concrete 1×1
systems: eigenvalue `2 ≥ 1e-12` takes the eigen path, eigenvalue `0`
falls back to the general solver. -/
theorem solve_sylvester_amended_witness :
    shape2 [[2]] = shape2 [[2]] ∧
    solve_sylvester sylvEnvB [[2]] [[2]] [[8]] = sylvesterEig sylvEnvB [[2]] [[8]] ∧
    solve_sylvester sylvEnvA [[0]] [[0]] [[1]] =
      sylvEnvA.scipy_solve_sylvester [[0]] [[0]] [[1]] :=
  ⟨rfl,
   (solve_sylvester_amended sylvEnvB [[2]] [[2]] [[8]] rfl).1
     (by refine ⟨rfl, ?_, ?_⟩ <;>
       norm_num [matAbsSubLt, transposeM, nCols, absQ, symTol, sylvEnvB, linEnvBase,
         range_one_eq]),
   (solve_sylvester_amended sylvEnvA [[0]] [[0]] [[1]] rfl).2
     (by norm_num [sylvEnvA, linEnvBase])⟩

theorem logm3_eigen (env : LinEnv) (xs : List Mat)
    (hs : ∀ mm ∈ xs, matAbsSubLt mm (transposeM mm) symTol = true)
    (hp : ∀ mm ∈ xs, ∀ v ∈ (env.eigh mm).1, 0 < v) :
    logm3 env xs = xs.map fun mm => eigLogm env mm := by
  unfold logm3
  rw [if_pos, if_pos]
  · rw [List.map_map]
    rfl
  · rw [List.all_eq_true]
    intro p hp'
    rw [List.mem_map] at hp'
    obtain ⟨mm, hmm, rfl⟩ := hp'
    rw [List.all_eq_true]
    intro v hv
    simpa using hp mm hmm v hv
  · unfold is_symmetric
    rw [List.all_eq_true]
    exact fun mm hmm => hs mm hmm

theorem logm3_fallback (env : LinEnv) (xs : List Mat)
    (h : ¬((∀ mm ∈ xs, matAbsSubLt mm (transposeM mm) symTol = true) ∧
      ∀ mm ∈ xs, ∀ v ∈ (env.eigh mm).1, 0 < v)) :
    logm3 env xs = xs.map env.scipy_logm := by
  unfold logm3
  split_ifs with h1 h2
  · exfalso
    apply h
    constructor
    · unfold is_symmetric at h1
      rw [List.all_eq_true] at h1
      exact fun mm hmm => h1 mm hmm
    · intro mm hmm v hv
      rw [List.all_eq_true] at h2
      have := h2 (env.eigh mm) (List.mem_map_of_mem env.eigh hmm)
      rw [List.all_eq_true] at this
      simpa using this v hv
  · rfl
  · rfl

theorem logm3_length (env : LinEnv) (xs : List Mat) :
    (logm3 env xs).length = xs.length := by
  unfold logm3
  split_ifs <;> simp

/-- C7: `logm` computes `V · diag(log eigvals) · Vᵀ` exactly when every
matrix of the input is symmetric within `1e-12` and all library
eigenvalues are strictly positive, falls back to the general
principal-logarithm routine otherwise, and preserves rank: rank-2 input
yields rank-2 output and rank-3 input yields rank-3 output of the same
batch length. -/
theorem logm_dispatch (env : LinEnv) (m : Mat) (t : List Mat) :
    (matAbsSubLt m (transposeM m) symTol = true →
      (∀ v ∈ (env.eigh m).1, 0 < v) →
      logm env (.arr2 m) = some (.arr2 (eigLogm env m))) ∧
    (¬(matAbsSubLt m (transposeM m) symTol = true ∧ ∀ v ∈ (env.eigh m).1, 0 < v) →
      logm env (.arr2 m) = some (.arr2 (env.scipy_logm m))) ∧
    ((∀ mm ∈ t, matAbsSubLt mm (transposeM mm) symTol = true) →
      (∀ mm ∈ t, ∀ v ∈ (env.eigh mm).1, 0 < v) →
      logm env (.arr3 t) = some (.arr3 (t.map fun mm => eigLogm env mm))) ∧
    (¬((∀ mm ∈ t, matAbsSubLt mm (transposeM mm) symTol = true) ∧
        ∀ mm ∈ t, ∀ v ∈ (env.eigh mm).1, 0 < v) →
      logm env (.arr3 t) = some (.arr3 (t.map env.scipy_logm))) ∧
    (∃ r, logm env (.arr2 m) = some (.arr2 r)) ∧
    (∃ rs, logm env (.arr3 t) = some (.arr3 rs) ∧ rs.length = t.length) := by
  refine ⟨?_, ?_, ?_, ?_, ⟨(logm3 env [m]).headD [], rfl⟩,
    ⟨logm3 env t, rfl, logm3_length env t⟩⟩
  · intro hs hp
    simp only [logm]
    rw [logm3_eigen env [m] (by simpa using hs) (by simpa using hp)]
    rfl
  · intro hne
    simp only [logm]
    rw [logm3_fallback env [m] (by simpa using hne)]
    rfl
  · intro hs hp
    simp only [logm]
    rw [logm3_eigen env t hs hp]
  · intro hne
    simp only [logm]
    rw [logm3_fallback env t hne]

/-- Witness for C7: each dispatch case of `logm` at a concrete symmetric
positive matrix and a concrete non-symmetric matrix, in rank 2 and
rank 3. -/
theorem logm_dispatch_witness :
    logm logmEnv (.arr2 [[1]]) = some (.arr2 [[0]]) ∧
    logm logmEnv (.arr2 [[0, 1], [0, 0]]) = some (.arr2 [[9]]) ∧
    logm logmEnv (.arr3 [[[1]]]) = some (.arr3 [[[0]]]) ∧
    logm logmEnv (.arr3 [[[0, 1], [0, 0]]]) = some (.arr3 [[[9]]]) := by
  have hsym : matAbsSubLt [[1]] (transposeM [[1]]) symTol = true := by
    norm_num [matAbsSubLt, transposeM, nCols, absQ, symTol, List.range_succ]
  have hasym : ¬ matAbsSubLt [[0, 1], [0, 0]] (transposeM [[0, 1], [0, 0]]) symTol = true := by
    norm_num [matAbsSubLt, transposeM, nCols, absQ, symTol, List.range_succ]
  have hpos : ∀ v ∈ (logmEnv.eigh [[1]]).1, (0 : ℚ) < v := by
    norm_num [logmEnv, linEnvBase]
  have heig : eigLogm logmEnv [[1]] = [[0]] := by
    norm_num [eigLogm, logmEnv, linEnvBase, matmulM, transposeM, diagM, dotL,
      nCols, List.range_succ]
  have hscipy : logmEnv.scipy_logm = fun _ => [[9]] := rfl
  refine ⟨?_, ?_, ?_, ?_⟩
  · rw [(logm_dispatch logmEnv [[1]] []).1 hsym hpos, heig]
  · rw [(logm_dispatch logmEnv [[0, 1], [0, 0]] []).2.1 (fun hc => hasym hc.1), hscipy]
  · rw [(logm_dispatch logmEnv [] [[[1]]]).2.2.1 (by simpa using hsym) (by simpa using hpos)]
    simp [heig]
  · rw [(logm_dispatch logmEnv [] [[[0, 1], [0, 0]]]).2.2.2.1
      (fun hc => hasym (by simpa using hc.1)), hscipy]
    simp

theorem zipWith_zipWith_same (f : γ → δ → ε) (g : α → β → γ) (h' : α → β → δ) :
    ∀ (la : List α) (lb : List β),
      List.zipWith f (List.zipWith g la lb) (List.zipWith h' la lb)
        = List.zipWith (fun a b => f (g a b) (h' a b)) la lb
  | [], _ => by simp
  | _ :: _, [] => by simp
  | a :: as, b :: bs => by
    simp only [List.zipWith_cons_cons]
    rw [zipWith_zipWith_same f g h' as bs]

theorem dist_eq (env : SphereEnv) {m : ℕ} (u v : List (V m))
    (h : u.length = v.length) :
    dist env u v = some (List.zipWith (fun a b =>
      env.arccos (clip (dotV a b / (env.sqrt (dotV a a) * env.sqrt (dotV b b)))
        (-1) 1)) u v) := by
  unfold dist inner_product normE
  rw [bcZip_eq_zipWith _ h]
  simp only [Option.bind_eq_bind, Option.some_bind]
  rw [bcZip_eq_zipWith _ (by simp [h]), List.zipWith_map]
  simp only [Option.bind_eq_bind, Option.some_bind]
  rw [bcZip_eq_zipWith _ (by simp [h]), zipWith_zipWith_same]
  simp only [Option.bind_eq_bind, Option.some_bind, List.map_zipWith]

/-- C8: `dist` computes the arccosine of the cosine of the angle clipped to
`[-1, 1]`; consequently, for a unit-norm point `p` (given the library facts
`sqrt 1 = 1`, `arccos 1 = 0`, `arccos (−1) = π`), `dist(p, p) = 0` and
`dist(p, −p) = π`. -/
theorem dist_spec (env : SphereEnv) {m : ℕ} (p : V m) (piv : ℚ)
    (hunit : dotV p p = 1) (hsqrt : env.sqrt 1 = 1)
    (h0 : env.arccos 1 = 0) (hpi : env.arccos (-1) = piv) :
    (∀ (u v : List (V m)), u.length = v.length →
      dist env u v = some (List.zipWith (fun a b =>
        env.arccos (clip (dotV a b / (env.sqrt (dotV a a) * env.sqrt (dotV b b)))
          (-1) 1)) u v)) ∧
    dist env [p] [p] = some [0] ∧
    dist env [p] [-p] = some [piv] := by
  have hneg : dotV p (-p) = -1 := by
    unfold dotV at hunit ⊢
    rw [Matrix.dotProduct_neg, hunit]
  have hnegneg : dotV (-p) (-p) = 1 := by
    unfold dotV at hunit ⊢
    rw [Matrix.neg_dotProduct, Matrix.dotProduct_neg, hunit, neg_neg]
  refine ⟨fun u v h => dist_eq env u v h, ?_, ?_⟩
  · rw [dist_eq env [p] [p] rfl]
    simp only [List.zipWith_cons_cons, List.zipWith_nil_right, hunit, hsqrt]
    norm_num [clip, h0]
  · rw [dist_eq env [p] [-p] rfl]
    simp only [List.zipWith_cons_cons, List.zipWith_nil_right, hunit, hneg,
      hnegneg, hsqrt]
    norm_num [clip, hpi]

/-- Witness for C8 at the concrete unit point `(1, 0)` with an oracle
satisfying the needed `sqrt`/`arccos` facts. -/
theorem dist_spec_witness :
    dotV ![1, 0] ![1, 0] = 1 ∧ arcEnv.sqrt 1 = 1 ∧ arcEnv.arccos 1 = 0 ∧
    arcEnv.arccos (-1) = 22 / 7 ∧
    dist arcEnv [![1, 0]] [![1, 0]] = some [0] ∧
    dist arcEnv [![1, 0]] [-![1, 0]] = some [22 / 7] := by
  have h1 : dotV ![(1 : ℚ), 0] ![1, 0] = 1 := by
    norm_num [dotV]
  have h2 : arcEnv.sqrt 1 = 1 := rfl
  have h3 : arcEnv.arccos 1 = 0 := by norm_num [arcEnv, idEnv]
  have h4 : arcEnv.arccos (-1) = 22 / 7 := by norm_num [arcEnv, idEnv]
  exact ⟨h1, h2, h3, h4,
    (dist_spec arcEnv ![1, 0] (22 / 7) h1 h2 h3 h4).2.1,
    (dist_spec arcEnv ![1, 0] (22 / 7) h1 h2 h3 h4).2.2⟩

/-- C4: for a unit-norm base point `p`, the exponential map of the zero
tangent vector at `p` returns `p` exactly: the projected tangent vector is
the exact zero vector, its norm is `sqrt 0 = 0`, the near-zero Taylor
branch yields coefficient 1 for the base point, and the result is `p` with
no rounding. -/
theorem exp_zero_tangent (env : SphereEnv) {m : ℕ} (p : V m)
    (hsqrt : env.sqrt 0 = 0) (hunit : dotV p p = 1) :
    projection_to_tangent_space [(0 : V m)] [p] = some [0] ∧
    exp env [(0 : V m)] [p] = some [p] := by
  have hp0 : dotV p (0 : V m) = 0 := Matrix.dotProduct_zero p
  have h00 : dotV (0 : V m) (0 : V m) = 0 := Matrix.zero_dotProduct 0
  have hic : isclose 0 0 = true := by norm_num [isclose, absQ]
  have hproj : projection_to_tangent_space [(0 : V m)] [p] = some [0] := by
    unfold projection_to_tangent_space inner_product squared_norm
    simp [bcZip, hp0]
  refine ⟨hproj, ?_⟩
  simp only [exp, hproj, Option.bind_eq_bind, Option.some_bind]
  simp [normE, bcZip, maskExtract, maskedAssign, maskedAssignGo, countTrue,
    h00, hsqrt, hic]

/-- Witness for C4 at the concrete unit point `(1, 0)` with the identity
oracle (whose `sqrt 0` is `0`). -/
theorem exp_zero_tangent_witness :
    idEnv.sqrt 0 = 0 ∧ dotV ![(1 : ℚ), 0] ![1, 0] = 1 ∧
    exp idEnv [(0 : V 2)] [![1, 0]] = some [![1, 0]] :=
  ⟨rfl, by norm_num [dotV],
   (exp_zero_tangent idEnv ![1, 0] rfl (by norm_num [dotV])).2⟩

set_option maxHeartbeats 1600000 in
/-- C2 (code bug): with a tangent batch of size 1 against a base batch of
size 2, `exp` tiles the rowwise norm of the already-broadcast projected
tangent vector (2 rows) by `n_exps // n_tangent_vecs = 2`, so the
`isclose` mask has 4 entries and the boolean-mask assignment into the
2-entry coefficient array fails (numpy `IndexError`, here `none`) instead
of returning the 2 broadcast results.  Each broadcast pair succeeds on its
own, and the opposite direction (base batch of size 1) broadcasts
correctly. -/
theorem exp_broadcast_tangent_crash :
    exp idEnv [![0, 1]] [![1, 0], ![0, 1]] = none ∧
    exp idEnv [![0, 1]] [![1, 0]] = some [![1, 1]] ∧
    exp idEnv [![0, 1]] [![0, 1]] = some [![0, 1]] ∧
    exp idEnv [![0, 1], ![0, 1]] [![1, 0]] = some [![1, 1], ![1, 1]] := by
  have hic0 : isclose 0 0 = true := by norm_num [isclose, absQ]
  have hic1 : isclose 1 0 = false := by norm_num [isclose, absQ]
  have hd10 : dotV ![(1 : ℚ), 0] ![0, 1] = 0 := by norm_num [dotV]
  have hd11 : dotV ![(1 : ℚ), 0] ![1, 0] = 1 := by norm_num [dotV]
  have hd01 : dotV ![(0 : ℚ), 1] ![0, 1] = 1 := by norm_num [dotV]
  have hd00 : dotV (0 : V 2) 0 = 0 := Matrix.zero_dotProduct 0
  refine ⟨?_, ?_, ?_, ?_⟩
  · simp [exp, projection_to_tangent_space, inner_product, squared_norm, normE,
      bcZip, maskExtract, maskedAssign, maskedAssignGo, countTrue, idEnv,
      hic0, hic1, hd10, hd11, hd01, hd00]
  · simp [exp, projection_to_tangent_space, inner_product, squared_norm, normE,
      bcZip, maskExtract, maskedAssign, maskedAssignGo, countTrue, idEnv,
      hic0, hic1, hd10, hd11, hd01, hd00]
    try norm_num [Matrix.smul_cons, Matrix.cons_add_cons]
  · simp [exp, projection_to_tangent_space, inner_product, squared_norm, normE,
      bcZip, maskExtract, maskedAssign, maskedAssignGo, countTrue, idEnv,
      hic0, hic1, hd10, hd11, hd01, hd00]
    try norm_num [Matrix.smul_cons, Matrix.cons_add_cons]
  · simp [exp, projection_to_tangent_space, inner_product, squared_norm, normE,
      bcZip, maskExtract, maskedAssign, maskedAssignGo, countTrue, idEnv,
      hic0, hic1, hd10, hd11, hd01, hd00]
    try norm_num [Matrix.smul_cons, Matrix.cons_add_cons]

/-- C5: for a unit base point `p` and tangent vectors `a`, `b` orthogonal
to `p` with `θ = ‖b‖ > 0` (and the library facts `θ·θ = ⟨b,b⟩` and
`sin²θ + cos²θ = 1`), the result
`−sin(θ)·pb·p + cos(θ)·pb·b̂ + orthogonalRemainder` of `parallel_transport`
has exactly the squared norm of `a`. -/
theorem parallel_transport_norm (env : SphereEnv) {m : ℕ} (a b p : V m)
    (hpp : dotV p p = 1) (hap : dotV a p = 0) (hbp : dotV b p = 0)
    (hth : env.sqrt (dotV b b) ≠ 0)
    (hth2 : env.sqrt (dotV b b) * env.sqrt (dotV b b) = dotV b b)
    (htrig : env.sin (env.sqrt (dotV b b)) * env.sin (env.sqrt (dotV b b))
      + env.cos (env.sqrt (dotV b b)) * env.cos (env.sqrt (dotV b b)) = 1) :
    ∃ r, parallel_transport env [a] [b] [p] = some [r] ∧ dotV r r = dotV a a := by
  refine ⟨-((env.sin (env.sqrt (dotV b b)) * dotV a ((1 / env.sqrt (dotV b b)) • b)) • p)
      + (env.cos (env.sqrt (dotV b b)) * dotV a ((1 / env.sqrt (dotV b b)) • b)) •
        ((1 / env.sqrt (dotV b b)) • b)
      + (a - dotV a ((1 / env.sqrt (dotV b b)) • b) • ((1 / env.sqrt (dotV b b)) • b)),
    ?_, ?_⟩
  · simp [parallel_transport]
  · simp only [dotV] at hpp hap hbp hth hth2 htrig ⊢
    have hpa : Matrix.dotProduct p a = 0 := by
      rw [Matrix.dotProduct_comm]; exact hap
    have hpb : Matrix.dotProduct p b = 0 := by
      rw [Matrix.dotProduct_comm]; exact hbp
    have hba : Matrix.dotProduct b a = Matrix.dotProduct a b :=
      Matrix.dotProduct_comm b a
    simp only [Matrix.add_dotProduct, Matrix.dotProduct_add, Matrix.sub_dotProduct,
      Matrix.dotProduct_sub, Matrix.neg_dotProduct, Matrix.dotProduct_neg,
      Matrix.smul_dotProduct, Matrix.dotProduct_smul, smul_eq_mul, hpp, hap, hbp,
      hpa, hpb, hba]
    have htinv : env.sqrt (Matrix.dotProduct b b) * (1 / env.sqrt (Matrix.dotProduct b b)) = 1 := by
      field_simp
    set θ := env.sqrt (Matrix.dotProduct b b) with hθdef
    set s := env.sin θ with hsdef
    set c := env.cos θ with hcdef
    set β := Matrix.dotProduct a b with hβdef
    linear_combination ((1 / θ) ^ 2 * β ^ 2) * htrig
      - ((c - 1) ^ 2 * (1 / θ) ^ 4 * β ^ 2) * hth2
      + ((c - 1) ^ 2 * (1 / θ) ^ 2 * β ^ 2 * (θ * (1 / θ) + 1)) * htinv

/-- Witness for C5: transporting `(0, 5, 0)` along `(0, 2, 0)` at the base
point `(1, 0, 0)` under an oracle with `sqrt 4 = 2` and the Pythagorean
pair `sin θ = 3/5`, `cos θ = 4/5`. -/
theorem parallel_transport_norm_witness :
    dotV ![(1 : ℚ), 0, 0] ![1, 0, 0] = 1 ∧
    dotV ![(0 : ℚ), 5, 0] ![1, 0, 0] = 0 ∧
    dotV ![(0 : ℚ), 2, 0] ![1, 0, 0] = 0 ∧
    ptEnv.sqrt (dotV ![(0 : ℚ), 2, 0] ![0, 2, 0]) = 2 ∧
    (∃ r, parallel_transport ptEnv [![0, 5, 0]] [![0, 2, 0]] [![1, 0, 0]] = some [r] ∧
      dotV r r = dotV ![(0 : ℚ), 5, 0] ![0, 5, 0]) := by
  refine ⟨by norm_num [dotV], by norm_num [dotV], by norm_num [dotV],
    by norm_num [ptEnv, dotV], ?_⟩
  exact parallel_transport_norm ptEnv ![0, 5, 0] ![0, 2, 0] ![1, 0, 0]
    (by norm_num [dotV]) (by norm_num [dotV]) (by norm_num [dotV])
    (by norm_num [ptEnv, dotV]) (by norm_num [ptEnv, dotV])
    (by norm_num [ptEnv, dotV])

set_option maxHeartbeats 3200000 in
/-- C3: for equal-length batches, `log` is total, and wherever a sample of
`point` is elementwise `isclose` to the same sample of `base_point`, the
output sample is forced to the exact zero vector (the trig-derived row `r`
is replaced by `r − 1·r`); in particular `log(p, p)` is the exact zero
vector. -/
theorem log_same_point_zero (env : SphereEnv) {m : ℕ}
    (point base_point : List (V m)) (h : point.length = base_point.length)
    (i : ℕ) (hi : i < point.length)
    (hclose : ∀ j, isclose (point.getD i 0 j) (base_point.getD i 0 j) = true) :
    ∃ L, log env point base_point = some L ∧ L.length = point.length ∧
      L.getD i 0 = 0 := by
  have hb : base_point.length = point.length := h.symm
  have hib : i < base_point.length := by omega
  unfold log inner_product normE
  rw [bcZip_eq_zipWith _ (by simp [hb])]
  simp only [Option.bind_eq_bind, Option.some_bind]
  rw [bcZip_eq_zipWith _ (by simp [hb])]
  simp only [Option.bind_eq_bind, Option.some_bind]
  rw [bcZip_eq_zipWith _ (by simp [hb])]
  simp only [Option.bind_eq_bind, Option.some_bind]
  rw [bcZip_eq_zipWith _ (by simp [hb])]
  simp only [Option.bind_eq_bind, Option.some_bind]
  rw [bcZip_eq_zipWith _ (by simp [hb])]
  simp only [Option.bind_eq_bind, Option.some_bind]
  rw [bcZip_eq_zipWith _ (by simp [hb])]
  simp only [Option.bind_eq_bind, Option.some_bind]
  rw [bcZip_eq_zipWith _ (by simp [hb])]
  simp only [Option.bind_eq_bind, Option.some_bind]
  rw [bcZip_eq_zipWith _ (by simp [hb])]
  refine ⟨_, rfl, by simp [hb], ?_⟩
  have hclose' : ∀ j, isclose (point[i] j) (base_point[i] j) = true := by
    intro j
    have e1 : point.getD i 0 = point[i] := by
      simp [hi]
    have e2 : base_point.getD i 0 = base_point[i] := by
      simp [hib]
    rw [e1, e2] at hclose
    exact hclose j
  have hic : isclose 0 0 = true := by norm_num [isclose, absQ]
  simp only [List.getD_eq_getElem?_getD]
  rw [List.getElem?_eq_getElem (by simp [hb]; omega)]
  simp only [Option.getD_some, List.getElem_zipWith, List.getElem_map]
  have hsum : (∑ j, boolFloat (!(isclose (point[i] j) (base_point[i] j)))) = 0 := by
    apply Finset.sum_eq_zero
    intro j _
    rw [hclose' j]
    rfl
  rw [hsum, hic]
  simp [boolFloat]

/-- Witness for C3: `log(p, p)` at the concrete unit point `(1, 0)` is the
exact zero vector. -/
theorem log_same_point_zero_witness :
    ∃ L, log idEnv [![1, 0]] [![1, 0]] = some L ∧ L.length = 1 ∧
      L.getD 0 0 = 0 := by
  have := log_same_point_zero idEnv [![1, 0]] [![1, 0]] rfl 0 (by norm_num)
    (by intro j; fin_cases j <;> norm_num [isclose, absQ])
  simpa using this

end Geomstats
